import Mathlib

/-!
Verification development for the KaleidoID Embedding Matching Engine
(src/face_recognizer.py, class KaleidoRecognizer).

Shallow embedding conventions:
* numpy float arrays are modelled as lists of real numbers (exact
  arithmetic); the float literal 1e-10 is modelled as the rational
  1/10^10;
* the Landmark Detector (mediapipe face mesh / face detection), image
  cropping and the Persistent Store are external collaborators and are
  passed in as function parameters; fallible Store calls return Except;
* a Python exception caught by the enclosing try/except of a method is
  modelled by the value the except branch returns, with the state
  mutations performed before the raise kept.
-/

namespace KaleidoID

/-- Embedding vectors: numpy float arrays modelled as lists of reals. -/
abbrev Vec := List ℝ

/-- self.embedding_size = 468 * 3. -/
def embedding_size : ℕ := 468 * 3

/-- np.mean of a vector. -/
noncomputable def vmean (v : Vec) : ℝ := v.sum / v.length

/-- np.std of a vector: square root of the mean squared deviation. -/
noncomputable def vstd (v : Vec) : ℝ :=
  Real.sqrt ((v.map (fun x => (x - vmean v) ^ 2)).sum / v.length)

/-- KaleidoRecognizer._normalize_embedding: subtract the mean of the
vector and, when the standard deviation is positive, divide by it. -/
noncomputable def normalize_embedding (v : Vec) : Vec :=
  if vstd v > 0 then v.map (fun x => (x - vmean v) / vstd v)
  else v.map (fun x => x - vmean v)

/-- np.dot on equal-length vectors. -/
def vdot (a b : Vec) : ℝ := (List.zipWith (· * ·) a b).sum

/-- np.linalg.norm: Euclidean norm. -/
noncomputable def vnorm (a : Vec) : ℝ := Real.sqrt (vdot a a)

/-- The guard constant 1e-10 of _calculate_similarity. -/
noncomputable def eps : ℝ := 1 / 10 ^ 10

/-- KaleidoRecognizer._calculate_similarity: cosine similarity of the
two vectors, each scaled by the inverse of its norm plus eps, mapped
from [-1, 1] into [0, 1]. -/
noncomputable def calculate_similarity (emb1 emb2 : Vec) : ℝ :=
  let emb1_norm := emb1.map (fun x => x / (vnorm emb1 + eps))
  let emb2_norm := emb2.map (fun x => x / (vnorm emb2 + eps))
  (vdot emb1_norm emb2_norm + 1) / 2

/-- The mutable state of a KaleidoRecognizer instance: the four
parallel gallery lists, the acceptance threshold and the embedding
cache (a dict from photo id to vector, modelled as a function). -/
structure RecState where
  known_embeddings : List Vec
  known_names : List String
  known_ids : List ℤ
  known_photo_ids : List (Option ℤ)
  recognition_threshold : ℝ
  embedding_cache : ℤ → Option Vec

/-- One iteration of the best-match loop of recognize_face: the
candidate replaces the running best only when its similarity is
strictly greater than the running best similarity and strictly greater
than the threshold. -/
noncomputable def matchStep (t : ℝ) (best : Option ℤ × ℝ × Option ℤ)
    (c : ℝ × ℤ × Option ℤ) : Option ℤ × ℝ × Option ℤ :=
  if c.1 > best.2.1 ∧ c.1 > t then (some c.2.1, c.1, c.2.2) else best

/-- The candidate list scanned by recognize_face: for gallery index i,
the similarity of the query to known_embeddings[i] together with
known_ids[i] and known_photo_ids[i] (the lists are index-aligned, an
invariant the gallery mutations preserve). -/
noncomputable def candidates (st : RecState) (q : Vec) : List (ℝ × ℤ × Option ℤ) :=
  List.zip (st.known_embeddings.map (fun e => calculate_similarity q e))
    (List.zip st.known_ids st.known_photo_ids)

/-- KaleidoRecognizer.recognize_face: returns (None, 0.0, None) when
the query embedding is absent or the gallery is empty, otherwise folds
matchStep over the candidate list starting from (None, 0.0, None). -/
noncomputable def recognize_face (st : RecState) (embedding : Option Vec) :
    Option ℤ × ℝ × Option ℤ :=
  match embedding with
  | none => (none, 0, none)
  | some e =>
    if st.known_embeddings.isEmpty then (none, 0, none)
    else (candidates st e).foldl (matchStep st.recognition_threshold) (none, 0, none)

/-- The person_data dict handed to training calls: an optional id plus
the last_name and first_name entries (absent keys read as the empty
string through dict.get). -/
structure PersonData where
  id : Option ℤ
  last_name : String
  first_name : String

/-- KaleidoRecognizer._add_embedding_to_memory: appends the embedding,
the display name, the person id (defaulting to len(known_ids) + 1) and
the photo id to the four parallel lists; always returns True. -/
def add_embedding_to_memory (embedding : Vec) (person_data : PersonData)
    (photo_id : Option ℤ) (st : RecState) : Bool × RecState :=
  let display_name := (person_data.last_name ++ " " ++ person_data.first_name).trim
  let person_id := person_data.id.getD ((st.known_ids.length : ℤ) + 1)
  (true, { st with
    known_embeddings := st.known_embeddings ++ [embedding],
    known_names := st.known_names ++ [display_name],
    known_ids := st.known_ids ++ [person_id],
    known_photo_ids := st.known_photo_ids ++ [photo_id] })

/-- KaleidoRecognizer.add_existing_embedding: inserts only when the
embedding is present and has length embedding_size, otherwise fails
with False and leaves the state unchanged. -/
def add_existing_embedding (embedding : Option Vec) (person_data : PersonData)
    (photo_id : Option ℤ) (st : RecState) : Bool × RecState :=
  match embedding with
  | some e =>
    if e.length = embedding_size then add_embedding_to_memory e person_data photo_id st
    else (false, st)
  | none => (false, st)

/-- KaleidoRecognizer.clear_embeddings: empties the four parallel
lists (the embedding cache is not touched by this method). -/
def clear_embeddings (st : RecState) : RecState :=
  { st with
    known_embeddings := [],
    known_names := [],
    known_ids := [],
    known_photo_ids := [] }

/-- KaleidoRecognizer.remove_embedding_by_photo_id: when some entry
holds the photo id, deletes the first such index from all four
parallel lists and drops the photo id from the cache, returning True;
otherwise returns False and changes nothing.  (The four list.pop calls
of the source are in range whenever the lists are aligned, which the
gallery invariant guarantees, so no exception path is reachable.) -/
def remove_embedding_by_photo_id (photo_id : ℤ) (st : RecState) : Bool × RecState :=
  if some photo_id ∈ st.known_photo_ids then
    let index := st.known_photo_ids.indexOf (some photo_id)
    (true, { st with
      known_embeddings := st.known_embeddings.eraseIdx index,
      known_names := st.known_names.eraseIdx index,
      known_ids := st.known_ids.eraseIdx index,
      known_photo_ids := st.known_photo_ids.eraseIdx index,
      embedding_cache := fun k => if k = photo_id then none else st.embedding_cache k })
  else (false, st)

/-- An image handed to the engine: its pixel dimensions plus an opaque
content handle (pixel data itself is never inspected by the core). -/
structure Image where
  height : ℤ
  width : ℤ
  content : ℤ

/-- The output of one face-mesh invocation for the first reported
face: the flattened landmark coordinates and the 2D pixel points kept
for visualization. -/
structure MeshOut where
  coords : List ℝ
  points2d : List (ℤ × ℤ)

/-- KaleidoRecognizer.extract_embedding: one detector invocation; when
a face is reported and its flattened landmark vector has length
embedding_size, the standardized vector is returned, otherwise None.
The external face mesh is the function parameter mesh. -/
noncomputable def extract_embedding (mesh : Image → Option MeshOut) (image : Image) :
    Option Vec :=
  match mesh image with
  | none => none
  | some m =>
    if m.coords.length = embedding_size then some (normalize_embedding m.coords)
    else none

/-- KaleidoRecognizer.extract_embedding_with_landmarks: same as
extract_embedding but also returns the 2D landmark points of the same
face; on any failure both components are None. -/
noncomputable def extract_embedding_with_landmarks (mesh : Image → Option MeshOut)
    (image : Image) : Option Vec × Option (List (ℤ × ℤ)) :=
  match mesh image with
  | none => (none, none)
  | some m =>
    if m.coords.length = embedding_size then
      (some (normalize_embedding m.coords), some m.points2d)
    else (none, none)

/-- KaleidoRecognizer.train_from_pil (the PIL to BGR conversion of
extract_embedding_from_pil is content-preserving and modelled as the
identity): extract, then insert into the gallery on success. -/
noncomputable def train_from_pil (mesh : Image → Option MeshOut) (pil_image : Image)
    (person_data : PersonData) (photo_id : Option ℤ) (st : RecState) : Bool × RecState :=
  match extract_embedding mesh pil_image with
  | some e => add_embedding_to_memory e person_data photo_id st
  | none => (false, st)

/-- A photo row of the Persistent Store: its id and the truthiness of
its stored face_embedding column. -/
structure PhotoRec where
  id : ℤ
  face_embedding : Bool

/-- A person row of the Persistent Store. -/
structure PersonRec where
  id : ℤ
  last_name : String
  first_name : String

/-- The Persistent Store collaborator (FaceDatabase): every call can
raise, modelled by Except. -/
structure Store where
  get_all_people : Except Unit (List PersonRec)
  get_person_photos : ℤ → Except Unit (List PhotoRec)
  get_photo_embedding : ℤ → Except Unit (Option Vec)
  get_photo_as_image : ℤ → Except Unit (Option Image)
  update_photo_embedding : ℤ → Vec → Except Unit Unit

/-- Write one vector into the embedding cache. -/
def cacheInsert (k : ℤ) (v : Vec) (st : RecState) : RecState :=
  { st with embedding_cache := fun j => if j = k then some v else st.embedding_cache j }

/-- The per-photo loop of KaleidoRecognizer.batch_train_person.  The
three per-photo paths are, in priority order: cached vector, stored
embedding, fresh extraction.  A raising Store call escapes to the
try/except that wraps the whole method, which returns 0 and keeps the
state mutated so far; soft per-photo failures only skip that photo. -/
noncomputable def batchAux (mesh : Image → Option MeshOut) (db : Store)
    (person_id : ℤ) (person_name : String) :
    List PhotoRec → ℕ → RecState → ℕ × RecState
  | [], n, st => (n, st)
  | p :: ps, n, st =>
    match st.embedding_cache p.id with
    | some embedding =>
      let r := add_existing_embedding (some embedding)
        ⟨some person_id, person_name, ""⟩ (some p.id) st
      batchAux mesh db person_id person_name ps (if r.1 then n + 1 else n) r.2
    | none =>
      if p.face_embedding then
        match db.get_photo_embedding p.id with
        | .error _ => (0, st)
        | .ok none => batchAux mesh db person_id person_name ps n st
        | .ok (some embedding) =>
          let r := add_existing_embedding (some embedding)
            ⟨some person_id, person_name, ""⟩ (some p.id) st
          if r.1 then
            batchAux mesh db person_id person_name ps (n + 1) (cacheInsert p.id embedding r.2)
          else batchAux mesh db person_id person_name ps n r.2
      else
        match db.get_photo_as_image p.id with
        | .error _ => (0, st)
        | .ok none => batchAux mesh db person_id person_name ps n st
        | .ok (some pil_image) =>
          let r := train_from_pil mesh pil_image
            ⟨some person_id, person_name, ""⟩ (some p.id) st
          if r.1 then
            match extract_embedding mesh pil_image with
            | some embedding =>
              match db.update_photo_embedding p.id embedding with
              | .error _ => (0, r.2)
              | .ok _ =>
                batchAux mesh db person_id person_name ps (n + 1) (cacheInsert p.id embedding r.2)
            | none => batchAux mesh db person_id person_name ps (n + 1) r.2
          else batchAux mesh db person_id person_name ps n r.2

/-- KaleidoRecognizer.batch_train_person. -/
noncomputable def batch_train_person (mesh : Image → Option MeshOut) (db : Store)
    (person_id : ℤ) (person_name : String) (st : RecState) : ℕ × RecState :=
  match db.get_person_photos person_id with
  | .error _ => (0, st)
  | .ok photos => batchAux mesh db person_id person_name photos 0 st

/-- The inner photo loop of load_embeddings_from_database for one
person: loads each stored embedding, skipping absent ones and those
whose length is not embedding_size; a raising Store call escapes as
Except.error carrying the state reached so far. -/
def loadPhotosAux (db : Store) (per : PersonRec) :
    List PhotoRec → ℕ → RecState → Except RecState (ℕ × RecState)
  | [], n, st => .ok (n, st)
  | p :: ps, n, st =>
    match db.get_photo_embedding p.id with
    | .error _ => .error st
    | .ok none => loadPhotosAux db per ps n st
    | .ok (some embedding) =>
      if embedding.length = embedding_size then
        loadPhotosAux db per ps (n + 1) (cacheInsert p.id embedding { st with
          known_embeddings := st.known_embeddings ++ [embedding],
          known_names := st.known_names ++
            [(per.last_name ++ " " ++ per.first_name).trim],
          known_ids := st.known_ids ++ [per.id],
          known_photo_ids := st.known_photo_ids ++ [some p.id] })
      else loadPhotosAux db per ps n st

/-- The outer people loop of load_embeddings_from_database. -/
def loadPeopleAux (db : Store) :
    List PersonRec → ℕ → RecState → Except RecState (ℕ × RecState)
  | [], n, st => .ok (n, st)
  | per :: pers, n, st =>
    match db.get_person_photos per.id with
    | .error _ => .error st
    | .ok photos =>
      match loadPhotosAux db per photos n st with
      | .error st2 => .error st2
      | .ok (n2, st2) => loadPeopleAux db pers n2 st2

/-- KaleidoRecognizer.load_embeddings_from_database: clears the
gallery and the cache, then loads every stored embedding of every
person; any raising Store call makes the whole method return 0 while
keeping the entries loaded before the raise. -/
def load_embeddings_from_database (db : Store) (st : RecState) : ℕ × RecState :=
  let st0 := { clear_embeddings st with embedding_cache := fun _ => none }
  match db.get_all_people with
  | .error _ => (0, st0)
  | .ok people =>
    match loadPeopleAux db people 0 st0 with
    | .error st2 => (0, st2)
    | .ok (n, st2) => (n, st2)

/-- One detected face as produced by detect_faces. -/
structure FaceInfo where
  bbox : ℤ × ℤ × ℤ × ℤ
  confidence : ℝ
  keypoints : List (ℤ × ℤ)

/-- One element of the list returned by recognize_face_in_image. -/
structure RecognitionResult where
  bbox : ℤ × ℤ × ℤ × ℤ
  detection_confidence : ℝ
  person_id : Option ℤ
  recognition_confidence : ℝ
  photo_id : Option ℤ
  landmarks : Option (List (ℤ × ℤ))

/-- KaleidoRecognizer.recognize_face_in_image, with its control flow
taken literally from the source: the body of the per-face loop is only
the bounding-box unpacking, so after the loop the bounding-box
variables hold the values of the last detected face; the recognition
block then runs once on that face.  When the detector reports no
faces the loop body never runs and reading the unbound bounding-box
variables raises a NameError, modelled as Except.error; the method has
no exception handler.  The external face detector is the parameter
detect_faces, cropping the numpy array is the parameter crop. -/
noncomputable def recognize_face_in_image (mesh : Image → Option MeshOut)
    (detect_faces : Image → List FaceInfo) (crop : Image → ℤ → ℤ → ℤ → ℤ → Image)
    (st : RecState) (image : Image) (extract_landmarks : Bool) :
    Except Unit (List RecognitionResult) :=
  let faces := detect_faces image
  match faces.getLast? with
  | none => .error ()
  | some face =>
    let x := face.bbox.1
    let y := face.bbox.2.1
    let w := face.bbox.2.2.1
    let h := face.bbox.2.2.2
    if x ≥ 0 ∧ y ≥ 0 ∧ x + w ≤ image.width ∧ y + h ≤ image.height then
      let face_roi := crop image x y w h
      let el := if extract_landmarks then extract_embedding_with_landmarks mesh face_roi
        else (extract_embedding mesh face_roi, none)
      let r := recognize_face st el.1
      .ok [{ bbox := face.bbox, detection_confidence := face.confidence,
             person_id := r.1, recognition_confidence := r.2.1, photo_id := r.2.2,
             landmarks := el.2 }]
    else .ok []

/-! ## Helper lemmas about the matcher fold -/

theorem zip_get {α β : Type} :
    ∀ (as : List α) (bs : List β) (i : ℕ) (h : i < (as.zip bs).length)
      (ha : i < as.length) (hb : i < bs.length),
      (as.zip bs).get ⟨i, h⟩ = (as.get ⟨i, ha⟩, bs.get ⟨i, hb⟩) := by
  intro as
  induction as with
  | nil => intro bs i h ha hb; simp at ha
  | cons a as ih =>
    intro bs i h ha hb
    cases bs with
    | nil => simp at hb
    | cons b bs =>
      cases i with
      | zero => rfl
      | succ i =>
        exact ih bs i (Nat.lt_of_succ_lt_succ h) (Nat.lt_of_succ_lt_succ ha)
          (Nat.lt_of_succ_lt_succ hb)

theorem matchStep_pos (t : ℝ) (b : Option ℤ × ℝ × Option ℤ) (c : ℝ × ℤ × Option ℤ)
    (h : c.1 > b.2.1 ∧ c.1 > t) : matchStep t b c = (some c.2.1, c.1, c.2.2) := by
  simp [matchStep, h.1, h.2]

theorem matchStep_neg (t : ℝ) (b : Option ℤ × ℝ × Option ℤ) (c : ℝ × ℤ × Option ℤ)
    (h : ¬(c.1 > b.2.1 ∧ c.1 > t)) : matchStep t b c = b := by
  simp only [matchStep, if_neg h]

/-- Complete characterization of the best-match fold of recognize_face:
either no candidate ever passed the double strict test and the initial
state survives, or the result is the candidate at an index whose
similarity beats the threshold and the initial best strictly, strictly
exceeds every earlier similarity (so exact ties are won by the earlier
entry) and is not exceeded by any later similarity. -/
theorem matchFold_char (t : ℝ) (cs : List (ℝ × ℤ × Option ℤ))
    (s0 : Option ℤ × ℝ × Option ℤ) :
    (cs.foldl (matchStep t) s0 = s0 ∧ ∀ c ∈ cs, c.1 ≤ s0.2.1 ∨ c.1 ≤ t) ∨
    (∃ i, ∃ hi : i < cs.length,
      cs.foldl (matchStep t) s0 =
        (some ((cs.get ⟨i, hi⟩).2.1), (cs.get ⟨i, hi⟩).1, (cs.get ⟨i, hi⟩).2.2) ∧
      t < (cs.get ⟨i, hi⟩).1 ∧ s0.2.1 < (cs.get ⟨i, hi⟩).1 ∧
      (∀ j, ∀ hj : j < cs.length, j < i → (cs.get ⟨j, hj⟩).1 < (cs.get ⟨i, hi⟩).1) ∧
      (∀ j, ∀ hj : j < cs.length, i < j → (cs.get ⟨j, hj⟩).1 ≤ (cs.get ⟨i, hi⟩).1)) := by
  induction cs generalizing s0 with
  | nil =>
    left
    exact ⟨rfl, by simp⟩
  | cons c cs ih =>
    rw [List.foldl_cons]
    by_cases h : c.1 > s0.2.1 ∧ c.1 > t
    · rw [matchStep_pos t s0 c h]
      rcases ih (some c.2.1, c.1, c.2.2) with ⟨heq, hall⟩ | ⟨i, hi, heq, hti, hbi, hbef, haft⟩
      · right
        refine ⟨0, Nat.succ_pos _, heq, h.2, h.1, ?_, ?_⟩
        · intro j hj hji; omega
        · intro j hj hji
          cases j with
          | zero => omega
          | succ j =>
            have hj2 : j < cs.length := Nat.lt_of_succ_lt_succ hj
            have hmem : cs.get ⟨j, hj2⟩ ∈ cs := List.get_mem cs j hj2
            rcases hall _ hmem with h1 | h1
            · exact h1
            · exact le_of_lt (lt_of_le_of_lt h1 h.2)
      · right
        refine ⟨i + 1, Nat.succ_lt_succ hi, heq, hti, lt_trans h.1 hbi, ?_, ?_⟩
        · intro j hj hji
          cases j with
          | zero => exact hbi
          | succ j =>
            exact hbef j (Nat.lt_of_succ_lt_succ hj) (Nat.lt_of_succ_lt_succ hji)
        · intro j hj hji
          cases j with
          | zero => omega
          | succ j =>
            exact haft j (Nat.lt_of_succ_lt_succ hj) (Nat.lt_of_succ_lt_succ hji)
    · rw [matchStep_neg t s0 c h]
      have hc : c.1 ≤ s0.2.1 ∨ c.1 ≤ t := by
        rcases not_and_or.mp h with h1 | h1
        · exact Or.inl (not_lt.mp h1)
        · exact Or.inr (not_lt.mp h1)
      rcases ih s0 with ⟨heq, hall⟩ | ⟨i, hi, heq, hti, hbi, hbef, haft⟩
      · left
        refine ⟨heq, ?_⟩
        intro c2 hc2
        rcases List.mem_cons.mp hc2 with rfl | hc2
        · exact hc
        · exact hall _ hc2
      · right
        refine ⟨i + 1, Nat.succ_lt_succ hi, heq, hti, hbi, ?_, ?_⟩
        · intro j hj hji
          cases j with
          | zero =>
            rcases hc with h1 | h1
            · exact lt_of_le_of_lt h1 hbi
            · exact lt_of_le_of_lt h1 hti
          | succ j =>
            exact hbef j (Nat.lt_of_succ_lt_succ hj) (Nat.lt_of_succ_lt_succ hji)
        · intro j hj hji
          cases j with
          | zero => omega
          | succ j =>
            exact haft j (Nat.lt_of_succ_lt_succ hj) (Nat.lt_of_succ_lt_succ hji)

theorem candidates_length (st : RecState) (q : Vec)
    (h1 : st.known_ids.length = st.known_embeddings.length)
    (h2 : st.known_photo_ids.length = st.known_embeddings.length) :
    (candidates st q).length = st.known_embeddings.length := by
  simp [candidates, List.length_zip, h1, h2]

theorem candidates_get (st : RecState) (q : Vec) (i : ℕ)
    (hi : i < st.known_embeddings.length) (hc : i < (candidates st q).length)
    (hid : i < st.known_ids.length) (hph : i < st.known_photo_ids.length) :
    (candidates st q).get ⟨i, hc⟩ =
      (calculate_similarity q (st.known_embeddings.get ⟨i, hi⟩),
       st.known_ids.get ⟨i, hid⟩, st.known_photo_ids.get ⟨i, hph⟩) := by
  unfold candidates
  rw [zip_get _ _ i _ (by simpa using hi) (by rw [List.length_zip]; omega)]
  rw [zip_get _ _ i _ hid hph]
  congr 1
  simp [List.getElem_map]

/-! ## C1: replacement policy of the matcher -/

/-- The selection property of recognize_face on a present query: either
the default no-match triple is returned, or the result is the gallery
entry at an index whose similarity is strictly above the acceptance
threshold, strictly above every earlier similarity in the scan (hence
an exact tie is won by the earlier-inserted entry) and not exceeded by
any later similarity. -/
def MatcherSelectionSpec (st : RecState) (q : Vec) : Prop :=
  recognize_face st (some q) = (none, 0, none) ∨
  ∃ i, ∃ hi : i < st.known_embeddings.length,
    (∃ hid : i < st.known_ids.length, ∃ hph : i < st.known_photo_ids.length,
      recognize_face st (some q) =
        (some (st.known_ids.get ⟨i, hid⟩),
         calculate_similarity q (st.known_embeddings.get ⟨i, hi⟩),
         st.known_photo_ids.get ⟨i, hph⟩)) ∧
    st.recognition_threshold < calculate_similarity q (st.known_embeddings.get ⟨i, hi⟩) ∧
    (∀ j, ∀ hj : j < st.known_embeddings.length, j < i →
      calculate_similarity q (st.known_embeddings.get ⟨j, hj⟩) <
        calculate_similarity q (st.known_embeddings.get ⟨i, hi⟩)) ∧
    (∀ j, ∀ hj : j < st.known_embeddings.length, i < j →
      calculate_similarity q (st.known_embeddings.get ⟨j, hj⟩) ≤
        calculate_similarity q (st.known_embeddings.get ⟨i, hi⟩))

/-- C1: in recognize_face a candidate replaces the running best only
when its mapped similarity is strictly greater than both the running
best similarity and the threshold; consequently a returned winner has
similarity strictly above the threshold (a candidate at or below the
threshold never wins, even alone), strictly above every
earlier-inserted similarity (first-seen wins on exact ties) and not
below any later one. -/
theorem recognize_selection_policy (st : RecState) (q : Vec)
    (h1 : st.known_ids.length = st.known_embeddings.length)
    (h2 : st.known_photo_ids.length = st.known_embeddings.length) :
    MatcherSelectionSpec st q := by
  unfold MatcherSelectionSpec
  by_cases hE : st.known_embeddings.isEmpty
  · left; simp [recognize_face, hE]
  · have hrec : recognize_face st (some q) =
        (candidates st q).foldl (matchStep st.recognition_threshold) (none, 0, none) := by
      simp [recognize_face, hE]
    rcases matchFold_char st.recognition_threshold (candidates st q) (none, 0, none) with
      ⟨heq, -⟩ | ⟨i, hic, heq, hti, -, hbef, haft⟩
    · left; rw [hrec, heq]
    · right
      have hlen : (candidates st q).length = st.known_embeddings.length :=
        candidates_length st q h1 h2
      have hi : i < st.known_embeddings.length := hlen ▸ hic
      have hgi := candidates_get st q i hi hic (by omega) (by omega)
      refine ⟨i, hi, ⟨by omega, by omega, ?_⟩, ?_, ?_, ?_⟩
      · rw [hrec, heq, hgi]
      · rw [hgi] at hti; exact hti
      · intro j hj hji
        have hjc : j < (candidates st q).length := by omega
        have hgj := candidates_get st q j hj hjc (by omega) (by omega)
        have hb := hbef j hjc hji
        rw [hgi, hgj] at hb
        exact hb
      · intro j hj hji
        have hjc : j < (candidates st q).length := by omega
        have hgj := candidates_get st q j hj hjc (by omega) (by omega)
        have ha := haft j hjc hji
        rw [hgi, hgj] at ha
        exact ha

/-- Concrete one-entry state for the C1 witness. -/
noncomputable def stC1 : RecState :=
  ⟨[[1]], ["x"], [7], [some 4], 3 / 5, fun _ => none⟩

/-- Witness for C1: the selection property instantiated at a concrete
one-entry aligned gallery. -/
theorem recognize_selection_policy_witness :
    stC1.known_ids.length = stC1.known_embeddings.length ∧
    stC1.known_photo_ids.length = stC1.known_embeddings.length ∧
    MatcherSelectionSpec stC1 [1] :=
  ⟨rfl, rfl, recognize_selection_policy stC1 [1] rfl rfl⟩

/-! ## C2: the exact default triple in every non-match case -/

/-- C2: recognize_face returns exactly (None, 0.0, None) whenever the
query is absent, the gallery is empty, or no gallery similarity
strictly exceeds the threshold; in particular the returned confidence
is exactly 0.0 and never the best sub-threshold similarity. -/
theorem recognize_nonmatch_default (st : RecState) (embedding : Option Vec)
    (h : embedding = none ∨ st.known_embeddings = [] ∨
      ∀ v, embedding = some v → ∀ e ∈ st.known_embeddings,
        calculate_similarity v e ≤ st.recognition_threshold) :
    recognize_face st embedding = (none, 0, none) := by
  match embedding with
  | none => rfl
  | some v =>
    rcases h with h | h | h
    · exact absurd h (by simp)
    · simp [recognize_face, h]
    · by_cases hE : st.known_embeddings.isEmpty
      · simp [recognize_face, hE]
      · have hrec : recognize_face st (some v) =
            (candidates st v).foldl (matchStep st.recognition_threshold) (none, 0, none) := by
          simp [recognize_face, hE]
        rcases matchFold_char st.recognition_threshold (candidates st v) (none, 0, none) with
          ⟨heq, -⟩ | ⟨i, hic, -, hti, -, -, -⟩
        · rw [hrec, heq]
        · exfalso
          have hic2 : i < (List.zip
              (st.known_embeddings.map fun e => calculate_similarity v e)
              (List.zip st.known_ids st.known_photo_ids)).length := hic
          have hlt : i <
              (st.known_embeddings.map fun e => calculate_similarity v e).length := by
            rw [List.length_zip] at hic2; omega
          have hgb : i < (List.zip st.known_ids st.known_photo_ids).length := by
            rw [List.length_zip] at hic2; omega
          have hg : (candidates st v).get ⟨i, hic⟩ =
              ((st.known_embeddings.map fun e => calculate_similarity v e).get ⟨i, hlt⟩,
               (List.zip st.known_ids st.known_photo_ids).get ⟨i, hgb⟩) :=
            zip_get _ _ i hic2 hlt hgb
          rw [hg] at hti
          have hie : i < st.known_embeddings.length := by simpa using hlt
          have hm : (st.known_embeddings.map fun e => calculate_similarity v e).get
              ⟨i, hlt⟩ = calculate_similarity v (st.known_embeddings.get ⟨i, hie⟩) := by
            simp [List.getElem_map]
          rw [hm] at hti
          have hmem : st.known_embeddings.get ⟨i, hie⟩ ∈ st.known_embeddings :=
            List.get_mem _ i hie
          exact absurd hti (not_lt.mpr (h v rfl _ hmem))

/-- Concrete one-entry state for the C2 witness. -/
noncomputable def stC2 : RecState :=
  ⟨[[1]], ["x"], [7], [some 4], 3 / 5, fun _ => none⟩

/-- Witness for C2: the absent-query case at a concrete state. -/
theorem recognize_nonmatch_default_witness :
    recognize_face stC2 none = (none, 0, none) :=
  recognize_nonmatch_default stC2 none (Or.inl rfl)

/-! ## C4: standardization yields mean 0 and standard deviation 1 -/

theorem sum_map_center (l : List ℝ) (m : ℝ) :
    (l.map (fun x => x - m)).sum = l.sum - l.length * m := by
  induction l with
  | nil => simp
  | cons a l ih =>
    simp only [List.map_cons, List.sum_cons, ih, List.length_cons]
    push_cast
    ring

theorem sum_map_center_div (l : List ℝ) (m s : ℝ) :
    (l.map (fun x => (x - m) / s)).sum = (l.sum - l.length * m) / s := by
  induction l with
  | nil => simp
  | cons a l ih =>
    simp only [List.map_cons, List.sum_cons, ih, List.length_cons]
    push_cast
    ring

theorem sum_map_center_sq_div (l : List ℝ) (m s : ℝ) :
    (l.map (fun x => ((x - m) / s) ^ 2)).sum =
      (l.map (fun x => (x - m) ^ 2)).sum / s ^ 2 := by
  induction l with
  | nil => simp
  | cons a l ih =>
    simp only [List.map_cons, List.sum_cons, ih]
    ring

theorem center_sq_sum_zero (l : List ℝ) (m : ℝ)
    (h : (l.map (fun x => (x - m) ^ 2)).sum = 0) : ∀ x ∈ l, x - m = 0 := by
  induction l with
  | nil => simp
  | cons a l ih =>
    simp only [List.map_cons, List.sum_cons] at h
    have h1 : 0 ≤ (a - m) ^ 2 := sq_nonneg _
    have h2 : 0 ≤ (l.map (fun x => (x - m) ^ 2)).sum := by
      apply List.sum_nonneg
      intro y hy
      obtain ⟨x, -, rfl⟩ := List.mem_map.mp hy
      exact sq_nonneg _
    intro x hx
    rcases List.mem_cons.mp hx with rfl | hx
    · exact sq_eq_zero_iff.mp (by linarith)
    · exact ih (by linarith) x hx

theorem map_center_eq_replicate (l : List ℝ) (m : ℝ) (h : ∀ x ∈ l, x - m = 0) :
    l.map (fun x => x - m) = List.replicate l.length 0 := by
  induction l with
  | nil => simp
  | cons a l ih =>
    simp only [List.map_cons, List.length_cons, List.replicate_succ]
    rw [h a (List.mem_cons_self a l), ih (fun x hx => h x (List.mem_cons_of_mem a hx))]

/-- C4: for every vector of length D = 1404, if its standard deviation
is nonzero then the standardized vector has mean 0 and standard
deviation 1 in exact arithmetic; if the standard deviation is zero,
only the mean is subtracted and the result is the zero vector. -/
theorem normalize_embedding_standardizes (v : Vec) (hl : v.length = 1404) :
    (vstd v ≠ 0 → vmean (normalize_embedding v) = 0 ∧ vstd (normalize_embedding v) = 1) ∧
    (vstd v = 0 → normalize_embedding v = List.replicate 1404 0) := by
  have hn : (v.length : ℝ) ≠ 0 := by rw [hl]; norm_num
  have hS_nonneg : 0 ≤ (v.map (fun x => (x - vmean v) ^ 2)).sum := by
    apply List.sum_nonneg
    intro y hy
    obtain ⟨x, -, rfl⟩ := List.mem_map.mp hy
    exact sq_nonneg _
  have hvar_nonneg : 0 ≤ (v.map (fun x => (x - vmean v) ^ 2)).sum / (v.length : ℝ) :=
    div_nonneg hS_nonneg (Nat.cast_nonneg _)
  constructor
  · intro hσ
    have hσpos : 0 < vstd v := lt_of_le_of_ne (Real.sqrt_nonneg _) (Ne.symm hσ)
    have hw : normalize_embedding v = v.map (fun x => (x - vmean v) / vstd v) := by
      rw [normalize_embedding, if_pos hσpos]
    have hcenter : v.sum - v.length * vmean v = 0 := by
      rw [vmean]
      field_simp
    have hwsum : (normalize_embedding v).sum = 0 := by
      rw [hw, sum_map_center_div, hcenter, zero_div]
    have hwlen : (normalize_embedding v).length = v.length := by
      rw [hw, List.length_map]
    have hmean : vmean (normalize_embedding v) = 0 := by
      rw [vmean, hwsum, zero_div]
    refine ⟨hmean, ?_⟩
    have hsq : vstd v ^ 2 = (v.map (fun x => (x - vmean v) ^ 2)).sum / (v.length : ℝ) :=
      Real.sq_sqrt hvar_nonneg
    have hS : (v.map (fun x => (x - vmean v) ^ 2)).sum ≠ 0 := by
      intro h0
      apply hσ
      rw [vstd, h0, zero_div, Real.sqrt_zero]
    have hmaps : (normalize_embedding v).map (fun y => (y - vmean (normalize_embedding v)) ^ 2) =
        v.map (fun x => ((x - vmean v) / vstd v) ^ 2) := by
      rw [hmean, hw, List.map_map]
      simp [Function.comp]
    have hinner : ((normalize_embedding v).map
        (fun y => (y - vmean (normalize_embedding v)) ^ 2)).sum /
          ((normalize_embedding v).length : ℝ) = 1 := by
      rw [hmaps, hwlen, sum_map_center_sq_div, hsq]
      field_simp
    rw [vstd, hinner, Real.sqrt_one]
  · intro hσ0
    have hvar0 : (v.map (fun x => (x - vmean v) ^ 2)).sum / (v.length : ℝ) = 0 :=
      (Real.sqrt_eq_zero hvar_nonneg).mp hσ0
    have hS0 : (v.map (fun x => (x - vmean v) ^ 2)).sum = 0 := by
      rcases div_eq_zero_iff.mp hvar0 with h | h
      · exact h
      · exact absurd h hn
    have hzero : ∀ x ∈ v, x - vmean v = 0 := center_sq_sum_zero v (vmean v) hS0
    have hneg : ¬ vstd v > 0 := by rw [hσ0]; exact lt_irrefl 0
    rw [normalize_embedding, if_neg hneg, map_center_eq_replicate v (vmean v) hzero, hl]

/-- Concrete length-1404 vector with standard deviation 1 for the C4
witness: 702 zeros followed by 702 twos. -/
noncomputable def vC4 : Vec := List.replicate 702 0 ++ List.replicate 702 2

/-- Witness for C4: the standardization property instantiated at a
concrete vector of length 1404 with nonzero standard deviation. -/
theorem normalize_embedding_standardizes_witness :
    vC4.length = 1404 ∧ vstd vC4 ≠ 0 ∧
    (vmean (normalize_embedding vC4) = 0 ∧ vstd (normalize_embedding vC4) = 1) := by
  have hl : vC4.length = 1404 := by
    simp only [vC4, List.length_append, List.length_replicate]
  have hm : vmean vC4 = 1 := by
    rw [vmean, hl]
    simp only [vC4, List.sum_append, List.sum_replicate, smul_eq_mul]
    norm_num
  have hinner : ((vC4.map (fun x => (x - vmean vC4) ^ 2)).sum / (vC4.length : ℝ)) = 1 := by
    rw [hm, hl]
    simp only [vC4, List.map_append, List.map_replicate, List.sum_append,
      List.sum_replicate, smul_eq_mul]
    norm_num
  have hs : vstd vC4 = 1 := by rw [vstd, hinner, Real.sqrt_one]
  have hne : vstd vC4 ≠ 0 := by rw [hs]; norm_num
  exact ⟨hl, hne, (normalize_embedding_standardizes vC4 hl).1 hne⟩

/-! ## C5 and C10: control flow of recognize_face_in_image -/

/-- C5: when at least one face is detected, the per-face loop body only
unpacks the bounding box, so after the loop the recognition block runs
exactly once on the last face; the returned list holds at most one
result and its bounding box is that of the last detected face. -/
theorem recognize_face_in_image_last_face_only (mesh : Image → Option MeshOut)
    (detect_faces : Image → List FaceInfo) (crop : Image → ℤ → ℤ → ℤ → ℤ → Image)
    (st : RecState) (image : Image) (extract_landmarks : Bool)
    (h : detect_faces image ≠ []) :
    ∃ l, recognize_face_in_image mesh detect_faces crop st image extract_landmarks =
        .ok l ∧ l.length ≤ 1 ∧
      ∀ r ∈ l, some r.bbox = ((detect_faces image).getLast?).map FaceInfo.bbox := by
  cases hl : (detect_faces image).getLast? with
  | none =>
    exact absurd (by simpa using hl) h
  | some face =>
    simp only [recognize_face_in_image, hl]
    split
    · refine ⟨_, rfl, by simp, ?_⟩
      intro r hr
      rw [List.mem_singleton] at hr
      subst hr
      simp
    · exact ⟨[], rfl, by simp, by simp⟩

/-- Witness for C5: a concrete one-face detector on a concrete image. -/
theorem recognize_face_in_image_last_face_only_witness :
    ((fun _ : Image => [(⟨(0, 0, 1, 1), 0, []⟩ : FaceInfo)]) ⟨10, 10, 0⟩) ≠ [] ∧
    ∃ l, recognize_face_in_image (fun _ => none)
        (fun _ => [(⟨(0, 0, 1, 1), 0, []⟩ : FaceInfo)]) (fun i _ _ _ _ => i)
        ⟨[], [], [], [], 3 / 5, fun _ => none⟩ ⟨10, 10, 0⟩ false = .ok l ∧
      l.length ≤ 1 ∧
      ∀ r ∈ l, some r.bbox =
        (((fun _ : Image => [(⟨(0, 0, 1, 1), 0, []⟩ : FaceInfo)])
          (⟨10, 10, 0⟩ : Image)).getLast?).map FaceInfo.bbox :=
  ⟨by simp, recognize_face_in_image_last_face_only _ _ _ _ _ _ (by simp)⟩

/-- C10: when face detection reports zero faces, the loop body never
binds the bounding-box variables, reading them after the loop raises a
NameError, and the method has no handler, so the error propagates
instead of an empty list being returned. -/
theorem recognize_face_in_image_zero_faces_raises (mesh : Image → Option MeshOut)
    (detect_faces : Image → List FaceInfo) (crop : Image → ℤ → ℤ → ℤ → ℤ → Image)
    (st : RecState) (image : Image) (extract_landmarks : Bool)
    (h : detect_faces image = []) :
    recognize_face_in_image mesh detect_faces crop st image extract_landmarks =
      .error () := by
  simp [recognize_face_in_image, h]

/-- Witness for C10: a concrete zero-face detector on a concrete image. -/
theorem recognize_face_in_image_zero_faces_raises_witness :
    recognize_face_in_image (fun _ => none) (fun _ => []) (fun i _ _ _ _ => i)
      ⟨[], [], [], [], 3 / 5, fun _ => none⟩ ⟨10, 10, 0⟩ false = .error () :=
  recognize_face_in_image_zero_faces_raises _ _ _ _ _ _ rfl

/-! ## C7: removal by photo id -/

theorem indexOf_cons_self_beq {α : Type} [BEq α] [LawfulBEq α] (a : α) (l : List α) :
    (a :: l).indexOf a = 0 := by
  simp [List.indexOf, List.findIdx_cons]

theorem indexOf_cons_ne_beq {α : Type} [BEq α] [LawfulBEq α] (a b : α) (l : List α)
    (h : b ≠ a) : (b :: l).indexOf a = l.indexOf a + 1 := by
  simp only [List.indexOf, List.findIdx_cons]
  rw [show (b == a) = false by simpa using h]
  rfl

theorem indexOf_mem_spec {α : Type} [BEq α] [LawfulBEq α] (a : α) :
    ∀ l : List α, a ∈ l → ∃ h : l.indexOf a < l.length, l.get ⟨l.indexOf a, h⟩ = a := by
  intro l
  induction l with
  | nil => simp
  | cons b l ih =>
    intro hmem
    by_cases hba : b = a
    · subst hba
      refine ⟨by rw [indexOf_cons_self_beq]; simp, ?_⟩
      simp [indexOf_cons_self_beq]
    · have hmem2 : a ∈ l := by
        rcases List.mem_cons.mp hmem with h1 | h1
        · exact absurd h1.symm hba
        · exact h1
      obtain ⟨hlt, hget⟩ := ih hmem2
      have hidx : (b :: l).indexOf a = l.indexOf a + 1 := indexOf_cons_ne_beq a b l hba
      refine ⟨by rw [hidx]; simpa using hlt, ?_⟩
      simp only [hidx, List.get_cons_succ]
      exact hget

theorem get_ne_of_lt_indexOf {α : Type} [BEq α] [LawfulBEq α] (a : α) :
    ∀ (l : List α) (j : ℕ) (hj : j < l.length), j < l.indexOf a → l.get ⟨j, hj⟩ ≠ a := by
  intro l
  induction l with
  | nil => intro j hj; simp at hj
  | cons b l ih =>
    intro j hj hlt
    by_cases hba : b = a
    · subst hba
      rw [indexOf_cons_self_beq] at hlt
      omega
    · cases j with
      | zero => simpa using hba
      | succ j =>
        rw [indexOf_cons_ne_beq a b l hba] at hlt
        exact ih j (Nat.lt_of_succ_lt_succ hj) (Nat.lt_of_succ_lt_succ hlt)

theorem count_eraseIdx_indexOf {α : Type} [BEq α] [LawfulBEq α] (a : α) :
    ∀ l : List α, a ∈ l → (l.eraseIdx (l.indexOf a)).count a + 1 = l.count a := by
  intro l
  induction l with
  | nil => simp
  | cons b l ih =>
    intro hmem
    by_cases hba : b = a
    · subst hba
      rw [indexOf_cons_self_beq]
      simp [List.count_cons_self]
    · have hmem2 : a ∈ l := by
        rcases List.mem_cons.mp hmem with h1 | h1
        · exact absurd h1.symm hba
        · exact h1
      rw [indexOf_cons_ne_beq a b l hba]
      rw [show (b :: l).eraseIdx (l.indexOf a + 1) = b :: l.eraseIdx (l.indexOf a) from rfl]
      rw [List.count_cons_of_ne (fun h => hba h.symm) _,
        List.count_cons_of_ne (fun h => hba h.symm) _]
      exact ih hmem2

/-- What removal does when an entry with the requested photo id exists:
it returns True and the state with the first matching index erased
from all four parallel lists and the photo id dropped from the cache;
the erased index is the first match; exactly one occurrence of the
photo id disappears. -/
def RemoveSpec (p : ℤ) (st : RecState) : Prop :=
  remove_embedding_by_photo_id p st =
    (true, { st with
      known_embeddings := st.known_embeddings.eraseIdx (st.known_photo_ids.indexOf (some p)),
      known_names := st.known_names.eraseIdx (st.known_photo_ids.indexOf (some p)),
      known_ids := st.known_ids.eraseIdx (st.known_photo_ids.indexOf (some p)),
      known_photo_ids := st.known_photo_ids.eraseIdx (st.known_photo_ids.indexOf (some p)),
      embedding_cache := fun k => if k = p then none else st.embedding_cache k }) ∧
  (∀ j, ∀ hj : j < st.known_photo_ids.length, j < st.known_photo_ids.indexOf (some p) →
    st.known_photo_ids.get ⟨j, hj⟩ ≠ some p) ∧
  (∃ hidx : st.known_photo_ids.indexOf (some p) < st.known_photo_ids.length,
    st.known_photo_ids.get ⟨st.known_photo_ids.indexOf (some p), hidx⟩ = some p) ∧
  (remove_embedding_by_photo_id p st).2.known_photo_ids.count (some p) + 1 =
    st.known_photo_ids.count (some p) ∧
  (remove_embedding_by_photo_id p st).2.embedding_cache p = none

/-- C7: removeByPhotoId removes the earliest-inserted matching entry
from every parallel field at that one index, removes the photo id from
the extraction cache and returns True; with no matching entry it
returns False and leaves the state unchanged; with several matching
entries exactly one is removed per call. -/
theorem remove_by_photo_id_spec (p : ℤ) (st : RecState) :
    (some p ∈ st.known_photo_ids → RemoveSpec p st) ∧
    (some p ∉ st.known_photo_ids → remove_embedding_by_photo_id p st = (false, st)) := by
  constructor
  · intro hmem
    have heq : remove_embedding_by_photo_id p st =
        (true, { st with
          known_embeddings :=
            st.known_embeddings.eraseIdx (st.known_photo_ids.indexOf (some p)),
          known_names := st.known_names.eraseIdx (st.known_photo_ids.indexOf (some p)),
          known_ids := st.known_ids.eraseIdx (st.known_photo_ids.indexOf (some p)),
          known_photo_ids :=
            st.known_photo_ids.eraseIdx (st.known_photo_ids.indexOf (some p)),
          embedding_cache := fun k => if k = p then none else st.embedding_cache k }) := by
      unfold remove_embedding_by_photo_id
      rw [if_pos hmem]
    refine ⟨heq, ?_, ?_, ?_, ?_⟩
    · exact fun j hj hlt => get_ne_of_lt_indexOf _ _ j hj hlt
    · exact indexOf_mem_spec _ _ hmem
    · rw [heq]
      exact count_eraseIdx_indexOf _ _ hmem
    · rw [heq]
      simp
  · intro hmem
    unfold remove_embedding_by_photo_id
    rw [if_neg hmem]

/-- Concrete state for the C7 witness: photo id 4 occurs twice. -/
noncomputable def stC7 : RecState :=
  ⟨[[1], [2], [3]], ["a", "b", "c"], [7, 8, 9], [some 4, some 5, some 4], 3 / 5,
    fun _ => none⟩

/-- Witness for C7: removal of the present photo id 4 and the no-op on
the absent photo id 6, at a concrete three-entry gallery. -/
theorem remove_by_photo_id_spec_witness :
    RemoveSpec 4 stC7 ∧ remove_embedding_by_photo_id 6 stC7 = (false, stC7) :=
  ⟨(remove_by_photo_id_spec 4 stC7).1 (by simp [stC7]),
   (remove_by_photo_id_spec 6 stC7).2 (by simp [stC7])⟩

/-! ## C6: index alignment of the four parallel gallery lists -/

/-- One gallery entry as conceptually inserted together. -/
structure Entry where
  emb : Vec
  name : String
  pid : ℤ
  photo : Option ℤ

/-- The four parallel lists of a state are exactly the four
projections of one list of inserted-together entries; this is the
formal content of index alignment: equal lengths and, at every index,
the tuple that was inserted together. -/
def galleryEq (st : RecState) (es : List Entry) : Prop :=
  st.known_embeddings = es.map Entry.emb ∧
  st.known_names = es.map Entry.name ∧
  st.known_ids = es.map Entry.pid ∧
  st.known_photo_ids = es.map Entry.photo

def galleryAligned (st : RecState) : Prop := ∃ es, galleryEq st es

/-- The gallery mutations of C6. -/
inductive GalleryOp where
  | insert (embedding : Vec) (person_data : PersonData) (photo_id : Option ℤ)
  | removeByPhotoId (photo_id : ℤ)
  | clear
  | loadAll (db : Store)

def applyOp (st : RecState) : GalleryOp → RecState
  | .insert e pd ph => (add_embedding_to_memory e pd ph st).2
  | .removeByPhotoId p => (remove_embedding_by_photo_id p st).2
  | .clear => clear_embeddings st
  | .loadAll db => (load_embeddings_from_database db st).2

def applyOps (st : RecState) (ops : List GalleryOp) : RecState :=
  ops.foldl applyOp st

theorem map_eraseIdx {α β : Type} (f : α → β) :
    ∀ (l : List α) (i : ℕ), (l.eraseIdx i).map f = (l.map f).eraseIdx i := by
  intro l
  induction l with
  | nil => intro i; simp
  | cons a l ih =>
    intro i
    cases i with
    | zero => simp
    | succ i => simp [List.eraseIdx_cons_succ, ih]

theorem add_embedding_aligned (st : RecState) (es : List Entry) (e : Vec)
    (pd : PersonData) (ph : Option ℤ) (h : galleryEq st es) :
    galleryEq (add_embedding_to_memory e pd ph st).2
      (es ++ [⟨e, (pd.last_name ++ " " ++ pd.first_name).trim,
        pd.id.getD ((st.known_ids.length : ℤ) + 1), ph⟩]) := by
  obtain ⟨h1, h2, h3, h4⟩ := h
  exact ⟨by simp [add_embedding_to_memory, h1],
    by simp [add_embedding_to_memory, h2],
    by simp [add_embedding_to_memory, h3],
    by simp [add_embedding_to_memory, h4]⟩

theorem remove_aligned (p : ℤ) (st : RecState) (h : galleryAligned st) :
    galleryAligned (remove_embedding_by_photo_id p st).2 := by
  obtain ⟨es, h1, h2, h3, h4⟩ := h
  by_cases hmem : some p ∈ st.known_photo_ids
  · refine ⟨es.eraseIdx (st.known_photo_ids.indexOf (some p)), ?_⟩
    unfold remove_embedding_by_photo_id
    rw [if_pos hmem]
    exact ⟨by simp [h1, map_eraseIdx], by simp [h2, map_eraseIdx],
      by simp [h3, map_eraseIdx], by simp [h4, map_eraseIdx]⟩
  · refine ⟨es, ?_⟩
    unfold remove_embedding_by_photo_id
    rw [if_neg hmem]
    exact ⟨h1, h2, h3, h4⟩

def alignedOut : Except RecState (ℕ × RecState) → Prop
  | .error st => galleryAligned st
  | .ok (_, st) => galleryAligned st

theorem loadPhotosAux_aligned (db : Store) (per : PersonRec) :
    ∀ (ps : List PhotoRec) (n : ℕ) (st : RecState), galleryAligned st →
      alignedOut (loadPhotosAux db per ps n st) := by
  intro ps
  induction ps with
  | nil => intro n st h; exact h
  | cons p ps ih =>
    intro n st h
    simp only [loadPhotosAux]
    cases hdb : db.get_photo_embedding p.id with
    | error e => simpa only [hdb] using h
    | ok oe =>
      cases oe with
      | none => simpa only [hdb] using ih n st h
      | some embedding =>
        simp only [hdb]
        by_cases hlen : embedding.length = embedding_size
        · rw [if_pos hlen]
          apply ih
          obtain ⟨es, h1, h2, h3, h4⟩ := h
          exact ⟨es ++ [⟨embedding, (per.last_name ++ " " ++ per.first_name).trim,
            per.id, some p.id⟩], by simp [cacheInsert, h1], by simp [cacheInsert, h2],
            by simp [cacheInsert, h3], by simp [cacheInsert, h4]⟩
        · rw [if_neg hlen]
          exact ih n st h

theorem loadPeopleAux_aligned (db : Store) :
    ∀ (pers : List PersonRec) (n : ℕ) (st : RecState), galleryAligned st →
      alignedOut (loadPeopleAux db pers n st) := by
  intro pers
  induction pers with
  | nil => intro n st h; exact h
  | cons per pers ih =>
    intro n st h
    simp only [loadPeopleAux]
    cases hdb : db.get_person_photos per.id with
    | error e => simpa only [hdb] using h
    | ok photos =>
      simp only [hdb]
      have hin := loadPhotosAux_aligned db per photos n st h
      cases hres : loadPhotosAux db per photos n st with
      | error st2 =>
        rw [hres] at hin
        simpa only [hres] using hin
      | ok val =>
        rw [hres] at hin
        obtain ⟨n2, st2⟩ := val
        simpa only [hres] using ih n2 st2 hin

theorem load_aligned (db : Store) (st : RecState) :
    galleryAligned (load_embeddings_from_database db st).2 := by
  have h0 : galleryAligned { clear_embeddings st with embedding_cache := fun _ => none } :=
    ⟨[], by simp [clear_embeddings, galleryEq]⟩
  simp only [load_embeddings_from_database]
  cases hdb : db.get_all_people with
  | error e => simpa only [hdb] using h0
  | ok people =>
    simp only [hdb]
    have hin := loadPeopleAux_aligned db people 0 _ h0
    cases hres : loadPeopleAux db people 0
        { clear_embeddings st with embedding_cache := fun _ => none } with
    | error st2 =>
      rw [hres] at hin
      simpa only [hres] using hin
    | ok val =>
      rw [hres] at hin
      obtain ⟨n2, st2⟩ := val
      simpa only [hres] using hin

theorem applyOp_aligned (st : RecState) (op : GalleryOp) (h : galleryAligned st) :
    galleryAligned (applyOp st op) := by
  cases op with
  | insert e pd ph =>
    obtain ⟨es, hes⟩ := h
    exact ⟨_, add_embedding_aligned st es e pd ph hes⟩
  | removeByPhotoId p => exact remove_aligned p st h
  | clear =>
    obtain ⟨es, hes⟩ := h
    exact ⟨[], by simp [applyOp, clear_embeddings, galleryEq]⟩
  | loadAll db => exact load_aligned db st

/-- C6: index alignment of the four parallel gallery lists is an
invariant of every sequence of insert, removeByPhotoId, clear and
loadAll mutations: from any aligned state (one whose four lists are
the projections of a single list of inserted-together 4-tuples) every
mutation sequence yields an aligned state, and alignment gives the
four lists equal length with the tuple at each index the one inserted
together. -/
theorem gallery_alignment_invariant (st : RecState) (ops : List GalleryOp)
    (h : galleryAligned st) :
    galleryAligned (applyOps st ops) ∧
    (applyOps st ops).known_names.length = (applyOps st ops).known_embeddings.length ∧
    (applyOps st ops).known_ids.length = (applyOps st ops).known_embeddings.length ∧
    (applyOps st ops).known_photo_ids.length = (applyOps st ops).known_embeddings.length := by
  have hmain : ∀ (ops : List GalleryOp) (st : RecState), galleryAligned st →
      galleryAligned (applyOps st ops) := by
    intro ops
    induction ops with
    | nil => intro st h; exact h
    | cons op ops ih =>
      intro st h
      exact ih (applyOp st op) (applyOp_aligned st op h)
  have hres := hmain ops st h
  obtain ⟨es, h1, h2, h3, h4⟩ := hres
  refine ⟨⟨es, h1, h2, h3, h4⟩, ?_, ?_, ?_⟩ <;> simp [h1, h2, h3, h4]

/-- Witness for C6: a concrete mutation sequence from the empty
(aligned) state. -/
theorem gallery_alignment_invariant_witness :
    galleryAligned (⟨[], [], [], [], 3 / 5, fun _ => none⟩ : RecState) ∧
    (galleryAligned (applyOps ⟨[], [], [], [], 3 / 5, fun _ => none⟩
        [.insert [1] ⟨some 7, "a", "b"⟩ (some 4), .removeByPhotoId 4, .clear]) ∧
      (applyOps (⟨[], [], [], [], 3 / 5, fun _ => none⟩ : RecState)
        [.insert [1] ⟨some 7, "a", "b"⟩ (some 4), .removeByPhotoId 4,
          .clear]).known_names.length =
        (applyOps (⟨[], [], [], [], 3 / 5, fun _ => none⟩ : RecState)
        [.insert [1] ⟨some 7, "a", "b"⟩ (some 4), .removeByPhotoId 4,
          .clear]).known_embeddings.length ∧
      (applyOps (⟨[], [], [], [], 3 / 5, fun _ => none⟩ : RecState)
        [.insert [1] ⟨some 7, "a", "b"⟩ (some 4), .removeByPhotoId 4,
          .clear]).known_ids.length =
        (applyOps (⟨[], [], [], [], 3 / 5, fun _ => none⟩ : RecState)
        [.insert [1] ⟨some 7, "a", "b"⟩ (some 4), .removeByPhotoId 4,
          .clear]).known_embeddings.length ∧
      (applyOps (⟨[], [], [], [], 3 / 5, fun _ => none⟩ : RecState)
        [.insert [1] ⟨some 7, "a", "b"⟩ (some 4), .removeByPhotoId 4,
          .clear]).known_photo_ids.length =
        (applyOps (⟨[], [], [], [], 3 / 5, fun _ => none⟩ : RecState)
        [.insert [1] ⟨some 7, "a", "b"⟩ (some 4), .removeByPhotoId 4,
          .clear]).known_embeddings.length) :=
  ⟨⟨[], by simp [galleryEq]⟩,
   gallery_alignment_invariant _ _ ⟨[], by simp [galleryEq]⟩⟩

/-! ## C8: loadAll is idempotent -/

def outState : Except RecState (ℕ × RecState) → RecState
  | .error st => st
  | .ok (_, st) => st

theorem loadPhotosAux_threshold (db : Store) (per : PersonRec) :
    ∀ (ps : List PhotoRec) (n : ℕ) (st : RecState),
      (outState (loadPhotosAux db per ps n st)).recognition_threshold =
        st.recognition_threshold := by
  intro ps
  induction ps with
  | nil => intro n st; rfl
  | cons p ps ih =>
    intro n st
    simp only [loadPhotosAux]
    cases hdb : db.get_photo_embedding p.id with
    | error e => rfl
    | ok oe =>
      cases oe with
      | none => exact ih n st
      | some embedding =>
        dsimp only
        by_cases hlen : embedding.length = embedding_size
        · rw [if_pos hlen, ih]
          rfl
        · rw [if_neg hlen]
          exact ih n st

theorem loadPeopleAux_threshold (db : Store) :
    ∀ (pers : List PersonRec) (n : ℕ) (st : RecState),
      (outState (loadPeopleAux db pers n st)).recognition_threshold =
        st.recognition_threshold := by
  intro pers
  induction pers with
  | nil => intro n st; rfl
  | cons per pers ih =>
    intro n st
    simp only [loadPeopleAux]
    cases hdb : db.get_person_photos per.id with
    | error e => rfl
    | ok photos =>
      dsimp only
      have hin := loadPhotosAux_threshold db per photos n st
      cases hres : loadPhotosAux db per photos n st with
      | error st2 =>
        rw [hres] at hin
        dsimp only
        exact hin
      | ok val =>
        rw [hres] at hin
        obtain ⟨n2, st2⟩ := val
        dsimp only
        rw [ih n2 st2]
        exact hin

theorem load_threshold_preserved (db : Store) (st : RecState) :
    (load_embeddings_from_database db st).2.recognition_threshold =
      st.recognition_threshold := by
  simp only [load_embeddings_from_database]
  cases hdb : db.get_all_people with
  | error e => rfl
  | ok people =>
    dsimp only
    have hin := loadPeopleAux_threshold db people 0
      { clear_embeddings st with embedding_cache := fun _ => none }
    cases hres : loadPeopleAux db people 0
        { clear_embeddings st with embedding_cache := fun _ => none } with
    | error st2 =>
      rw [hres] at hin
      dsimp only
      exact hin
    | ok val =>
      rw [hres] at hin
      obtain ⟨n2, st2⟩ := val
      dsimp only
      exact hin

theorem load_depends_only_on_threshold (db : Store) (st st2 : RecState)
    (h : st.recognition_threshold = st2.recognition_threshold) :
    load_embeddings_from_database db st = load_embeddings_from_database db st2 := by
  have hst : ({ clear_embeddings st with embedding_cache := fun _ => none } : RecState) =
      { clear_embeddings st2 with embedding_cache := fun _ => none } := by
    simp [clear_embeddings, h]
  simp only [load_embeddings_from_database, hst]

/-- C8: load_embeddings_from_database clears the gallery and the cache
first, so its count and resulting state depend on the incoming state
only through the untouched threshold; an immediate second call against
an unchanged Store therefore returns the same loadedCount and leaves
exactly the same gallery (entries are not doubled). -/
theorem load_embeddings_idempotent (db : Store) (st : RecState) :
    load_embeddings_from_database db (load_embeddings_from_database db st).2 =
      load_embeddings_from_database db st :=
  load_depends_only_on_threshold db _ st (load_threshold_preserved db st)

/-! ## C3: a raising Store call aborts the whole batch -/

/-- The abort behavior of the batch loops when a Persistent Store call
raises while handling one photo: batch_train_person discards the
accumulated count, never processes the remaining photos and returns 0
(keeping the state mutated so far), and the load loop escapes the same
way; only a non-raising per-photo failure (a missing stored embedding)
is skipped with processing continuing. -/
def BatchAbortSpec (mesh : Image → Option MeshOut) (db : Store) (person_id : ℤ)
    (person_name : String) (p : PhotoRec) (ps : List PhotoRec) (n : ℕ)
    (st : RecState) : Prop :=
  batchAux mesh db person_id person_name (p :: ps) n st = (0, st) ∧
  (∀ per : PersonRec, loadPhotosAux db per (p :: ps) n st = .error st) ∧
  (∀ q : PhotoRec, st.embedding_cache q.id = none → q.face_embedding = true →
    db.get_photo_embedding q.id = .ok none →
    batchAux mesh db person_id person_name (q :: ps) n st =
      batchAux mesh db person_id person_name ps n st)

/-- C3 (amended): when a Persistent Store call raises for one photo,
batch_train_person and load_embeddings_from_database abort the whole
batch: the exception escapes the loop to the try/except wrapping the
whole method, the running count is discarded, the remaining items are
never processed and 0 is returned; the successes before the failing
item stay in the gallery but are not counted.  Only non-raising
per-item failures are skipped with processing continuing. -/
theorem batch_store_error_aborts (mesh : Image → Option MeshOut) (db : Store)
    (person_id : ℤ) (person_name : String) (p : PhotoRec) (ps : List PhotoRec)
    (n : ℕ) (st : RecState)
    (hc : st.embedding_cache p.id = none) (hf : p.face_embedding = true)
    (herr : db.get_photo_embedding p.id = .error ()) :
    BatchAbortSpec mesh db person_id person_name p ps n st := by
  refine ⟨?_, ?_, ?_⟩
  · simp only [batchAux, hc, hf, herr, if_true]
  · intro per
    simp only [loadPhotosAux, herr]
  · intro q hqc hqf hqok
    simp only [batchAux, hqc, hqf, hqok, if_true]

/-- The length-D vector cached for photos 1 and 3 in the C3
counterexample. -/
noncomputable def vecC3 : Vec := List.replicate 1404 1

/-- Engine state for the C3 counterexample: empty gallery, photos 1
and 3 already cached. -/
noncomputable def stC3 : RecState :=
  ⟨[], [], [], [], 3 / 5,
    fun k => if k = 1 then some vecC3 else if k = 3 then some vecC3 else none⟩

/-- Person 1 has three photos; photo 2 carries a stored embedding
marker, photos 1 and 3 are served from the cache. -/
def photosC3 : List PhotoRec := [⟨1, false⟩, ⟨2, true⟩, ⟨3, false⟩]

/-- Store whose get_photo_embedding raises for photo 2. -/
def dbC3 : Store :=
  ⟨.ok [], fun pid => if pid = 1 then .ok photosC3 else .ok [],
   fun k => if k = 2 then .error () else .ok none,
   fun _ => .ok none, fun _ _ => .ok ()⟩

/-- The same Store except that photo 2 merely has no stored embedding
(a non-raising per-item failure). -/
def dbC3b : Store :=
  ⟨.ok [], fun pid => if pid = 1 then .ok photosC3 else .ok [],
   fun _ => .ok none, fun _ => .ok none, fun _ _ => .ok ()⟩

/-- Counterexample to C3 as stated: with the raising Store the batch
returns 0 and stops after the first photo (one gallery entry, photo 3
never processed), although with the failure downgraded to a
non-raising one the same batch trains 2 photos — the items before and
after the failing one do succeed, yet the raising run counts none of
them. -/
theorem batch_store_error_counterexample :
    (batch_train_person (fun _ => none) dbC3 1 "X" stC3).1 = 0 ∧
    (batch_train_person (fun _ => none) dbC3 1 "X" stC3).2.known_embeddings.length = 1 ∧
    (batch_train_person (fun _ => none) dbC3b 1 "X" stC3).1 = 2 := by
  have hlen : vecC3.length = embedding_size := by
    simp only [vecC3, List.length_replicate, embedding_size]
  refine ⟨?_, ?_, ?_⟩ <;>
    simp [batch_train_person, batchAux, dbC3, dbC3b, photosC3, stC3,
      add_existing_embedding, add_embedding_to_memory, hlen]

/-- Witness for the amended C3: the abort at photo 2 of the concrete
raising Store, with a nonzero running count that gets discarded. -/
theorem batch_store_error_aborts_witness :
    BatchAbortSpec (fun _ => none) dbC3 1 "X" ⟨2, true⟩ [⟨3, false⟩] 5 stC3 :=
  batch_store_error_aborts (fun _ => none) dbC3 1 "X" ⟨2, true⟩ [⟨3, false⟩] 5 stC3
    (by simp [stC3]) rfl (by simp [dbC3])

/-! ## C9: self-match -/

theorem vdot_cons (a b : ℝ) (v w : Vec) : vdot (a :: v) (b :: w) = a * b + vdot v w := by
  simp [vdot]

theorem vdot_self_nonneg : ∀ v : Vec, 0 ≤ vdot v v := by
  intro v
  induction v with
  | nil => simp [vdot]
  | cons a v ih =>
    rw [vdot_cons]
    nlinarith [mul_self_nonneg a]

theorem vdot_map_div (c : ℝ) : ∀ v : Vec,
    vdot (v.map (fun x => x / c)) (v.map (fun x => x / c)) = vdot v v / c ^ 2 := by
  intro v
  induction v with
  | nil => simp [vdot]
  | cons a v ih =>
    simp only [List.map_cons, vdot_cons, ih]
    ring

theorem calculate_similarity_self (v : Vec) :
    calculate_similarity v v = (vdot v v / (vnorm v + eps) ^ 2 + 1) / 2 := by
  show (vdot (v.map fun x => x / (vnorm v + eps)) (v.map fun x => x / (vnorm v + eps)) + 1)
      / 2 = _
  rw [vdot_map_div]

/-- Because of the epsilon guard on the norm, the mapped similarity of
a vector with itself is strictly below 1 in exact arithmetic. -/
theorem calculate_similarity_self_lt_one (v : Vec) : calculate_similarity v v < 1 := by
  rw [calculate_similarity_self]
  have hd : 0 ≤ vdot v v := vdot_self_nonneg v
  have hnn : 0 ≤ vnorm v := Real.sqrt_nonneg _
  have hsq : vnorm v ^ 2 = vdot v v := Real.sq_sqrt hd
  have heps : (0 : ℝ) < eps := by norm_num [eps]
  have hlt : vdot v v < (vnorm v + eps) ^ 2 := by nlinarith
  have hpos : (0 : ℝ) < (vnorm v + eps) ^ 2 := by positivity
  have hq : vdot v v / (vnorm v + eps) ^ 2 < 1 := (div_lt_one hpos).mpr hlt
  linarith

/-- C9 (amended): for a gallery entry v at index i and the identical
query q = v, recognize_face returns (id_i, s, photoId_i) where s is
the self-similarity of v — strictly below 1.0 because of the epsilon
guard on the norm — provided the nonnegative threshold is strictly
below s, every earlier entry has similarity strictly below s and every
later entry has similarity at most s. -/
theorem recognize_self_match (st : RecState) (i : ℕ)
    (hi : i < st.known_embeddings.length)
    (hid : i < st.known_ids.length) (hph : i < st.known_photo_ids.length)
    (h1 : st.known_ids.length = st.known_embeddings.length)
    (h2 : st.known_photo_ids.length = st.known_embeddings.length)
    (ht0 : 0 ≤ st.recognition_threshold)
    (hτ : st.recognition_threshold < calculate_similarity
      (st.known_embeddings.get ⟨i, hi⟩) (st.known_embeddings.get ⟨i, hi⟩))
    (hbef : ∀ j, ∀ hj : j < st.known_embeddings.length, j < i →
      calculate_similarity (st.known_embeddings.get ⟨i, hi⟩)
          (st.known_embeddings.get ⟨j, hj⟩) <
        calculate_similarity (st.known_embeddings.get ⟨i, hi⟩)
          (st.known_embeddings.get ⟨i, hi⟩))
    (haft : ∀ j, ∀ hj : j < st.known_embeddings.length, i < j →
      calculate_similarity (st.known_embeddings.get ⟨i, hi⟩)
          (st.known_embeddings.get ⟨j, hj⟩) ≤
        calculate_similarity (st.known_embeddings.get ⟨i, hi⟩)
          (st.known_embeddings.get ⟨i, hi⟩)) :
    recognize_face st (some (st.known_embeddings.get ⟨i, hi⟩)) =
      (some (st.known_ids.get ⟨i, hid⟩),
       calculate_similarity (st.known_embeddings.get ⟨i, hi⟩)
         (st.known_embeddings.get ⟨i, hi⟩),
       st.known_photo_ids.get ⟨i, hph⟩) ∧
    calculate_similarity (st.known_embeddings.get ⟨i, hi⟩)
      (st.known_embeddings.get ⟨i, hi⟩) < 1 := by
  refine ⟨?_, calculate_similarity_self_lt_one _⟩
  have hne : st.known_embeddings ≠ [] := List.ne_nil_of_length_pos (by omega)
  have hE : st.known_embeddings.isEmpty = false := by
    simpa using hne
  have hrec : recognize_face st (some (st.known_embeddings.get ⟨i, hi⟩)) =
      (candidates st (st.known_embeddings.get ⟨i, hi⟩)).foldl
        (matchStep st.recognition_threshold) (none, 0, none) := by
    simp [recognize_face, hE]
  have hlen := candidates_length st (st.known_embeddings.get ⟨i, hi⟩) h1 h2
  have hic : i < (candidates st (st.known_embeddings.get ⟨i, hi⟩)).length := by omega
  have hgi := candidates_get st (st.known_embeddings.get ⟨i, hi⟩) i hi hic hid hph
  rcases matchFold_char st.recognition_threshold
      (candidates st (st.known_embeddings.get ⟨i, hi⟩)) (none, 0, none) with
    ⟨heq, hall⟩ | ⟨k, hkc, heq, htk, hbk, hbefk, haftk⟩
  · exfalso
    have hmem := List.get_mem _ i hic
    rw [hgi] at hmem
    rcases hall _ hmem with hle | hle
    · have hle2 : calculate_similarity (st.known_embeddings.get ⟨i, hi⟩)
          (st.known_embeddings.get ⟨i, hi⟩) ≤ 0 := hle
      linarith
    · have hle2 : calculate_similarity (st.known_embeddings.get ⟨i, hi⟩)
          (st.known_embeddings.get ⟨i, hi⟩) ≤ st.recognition_threshold := hle
      linarith
  · have hk : k < st.known_embeddings.length := by omega
    have hgk := candidates_get st (st.known_embeddings.get ⟨i, hi⟩) k hk hkc
      (by omega) (by omega)
    have hki : k = i := by
      rcases lt_trichotomy k i with hlt | heqki | hgt
      · exfalso
        have h3 := haftk i hic hlt
        simp only [hgi, hgk] at h3
        have h4 := hbef k hk hlt
        linarith
      · exact heqki
      · exfalso
        have h3 := hbefk i hic hgt
        simp only [hgi, hgk] at h3
        have h4 := haft k hk hgt
        linarith
    subst hki
    rw [hrec, heq, hgk]

/-- The nonzero length-1404 vector of the C9 counterexample. -/
noncomputable def vC9 : Vec := 3 :: 4 :: List.replicate 1402 0

theorem vdot_replicate_zero (n : ℕ) :
    vdot (List.replicate n (0 : ℝ)) (List.replicate n 0) = 0 := by
  induction n with
  | zero => simp [vdot]
  | succ n ih => simp [List.replicate_succ, vdot_cons, ih]

theorem vdot_vC9 : vdot vC9 vC9 = 25 := by
  rw [show vC9 = 3 :: 4 :: List.replicate 1402 0 from rfl, vdot_cons, vdot_cons,
    vdot_replicate_zero]
  norm_num

theorem vnorm_vC9 : vnorm vC9 = 5 := by
  show Real.sqrt (vdot vC9 vC9) = 5
  rw [vdot_vC9, show (25 : ℝ) = 5 ^ 2 by norm_num, Real.sqrt_sq (by norm_num)]

theorem sim_vC9 : calculate_similarity vC9 vC9 = (25 / (5 + eps) ^ 2 + 1) / 2 := by
  rw [calculate_similarity_self, vdot_vC9, vnorm_vC9]

/-- One-entry gallery holding vC9 with threshold 1 − 10^{-11}. -/
noncomputable def stC9 : RecState :=
  ⟨[vC9], ["x"], [7], [some 101], 1 - 1 / 10 ^ 11, fun _ => none⟩

/-- Counterexample to C9 as stated: a one-entry gallery holding the
nonzero length-D vector v itself and a threshold strictly below 1.0
(τ = 1 − 10^{-11}); recognize_face on the identical query returns
(None, 0.0, None), not (id, ≈1.0, photoId), because the epsilon guard
puts the self-similarity strictly below τ. -/
theorem recognize_self_match_counterexample :
    stC9.recognition_threshold < 1 ∧ vC9.length = 1404 ∧
    vC9 ≠ List.replicate 1404 0 ∧
    recognize_face stC9 (some vC9) = (none, 0, none) := by
  refine ⟨by norm_num [stC9], ?_, ?_, ?_⟩
  · simp only [vC9, List.length_cons, List.length_replicate]
  · intro h
    have h1403 : List.replicate 1404 (0 : ℝ) = 0 :: List.replicate 1403 0 := by
      rw [show (1404 : ℕ) = 1403 + 1 by norm_num, List.replicate_succ]
    rw [show vC9 = 3 :: 4 :: List.replicate 1402 0 from rfl, h1403] at h
    norm_num at h
  · have hsle : calculate_similarity vC9 vC9 ≤ stC9.recognition_threshold := by
      rw [sim_vC9]
      show (25 / (5 + eps) ^ 2 + 1) / 2 ≤ 1 - 1 / 10 ^ 11
      simp only [eps]
      norm_num
    have hcand : candidates stC9 vC9 =
        [(calculate_similarity vC9 vC9, 7, some 101)] := by
      simp [candidates, stC9]
    have hrec : recognize_face stC9 (some vC9) =
        (candidates stC9 vC9).foldl (matchStep stC9.recognition_threshold)
          (none, 0, none) := by
      simp [recognize_face, stC9]
    rw [hrec, hcand, List.foldl_cons, List.foldl_nil,
      matchStep_neg _ _ _ (fun hcontra => absurd hcontra.2 (not_lt.mpr hsle))]

/-- One-entry gallery holding vC9 with threshold 0.6 for the amended
C9 witness. -/
noncomputable def stC9w : RecState :=
  ⟨[vC9], ["x"], [7], [some 101], 3 / 5, fun _ => none⟩

/-- Witness for the amended C9: with τ = 0.6 the self-match on the
one-entry gallery wins and reports the self-similarity, which is
strictly below 1. -/
theorem recognize_self_match_witness :
    recognize_face stC9w (some vC9) =
      (some 7, calculate_similarity vC9 vC9, some 101) ∧
    calculate_similarity vC9 vC9 < 1 := by
  have hsim : (3 : ℝ) / 5 < calculate_similarity vC9 vC9 := by
    rw [sim_vC9]
    simp only [eps]
    norm_num
  have h := recognize_self_match stC9w 0 (by simp [stC9w]) (by simp [stC9w])
    (by simp [stC9w]) rfl rfl (by norm_num [stC9w]) (by exact hsim)
    (fun j hj hji => absurd hji (by omega))
    (fun j hj hji => absurd hji (by simp [stC9w] at hj; omega))
  exact h

end KaleidoID
